import Mathlib

/-
Verification of the decision-tree core of XAI_FINAL_PROJ
(src/src/components/DecisionTree.tsx, which also embeds the dataLoader
module that defines buildDecisionTree and predictFromTree).

The embedding models JavaScript data as follows:
  a cell value is a number (idealised as a rational, the dataset has no
  NaN entries) or a string; a record is an association list from column
  name to value, in the column order of the source row (JS object keys
  iterate in insertion order); a missing key reads as the JS value
  `undefined`, modelled by Option.none.  `Number(undefined)` is NaN,
  modelled as Option.none on the numeric side, and every comparison
  with NaN is false, exactly as in JS.  Floating point arithmetic is
  idealised as exact real arithmetic (entropy uses base-2 logarithms,
  hence the real field); the JS literal 0.01 is read as the exact
  rational 1/100.
-/

namespace DTree

open scoped Classical

/-- A JS cell value: a number or a string. -/
inductive Value where
  | num (q : ℚ)
  | str (s : String)
deriving DecidableEq

/-- A data record: association list from column name to value, in the
column order of the source row (models the DataPoint interface). -/
abbrev DataPoint := List (String × Value)

/-- First-match association lookup; none models reading an absent key
(the JS value undefined). -/
def lookupVal : DataPoint → String → Option Value
  | [], _ => none
  | (k, v) :: rest, key => if k = key then some v else lookupVal rest key

/-- Rendering of a number by JS String(), restricted to the values this
development evaluates (integers print with no fractional part). -/
def numToString (q : ℚ) : String :=
  if q.den = 1 then toString q.num else toString q

/-- JS String() coercion of a possibly absent cell value:
String(undefined) is the string "undefined". -/
def jsString : Option Value → String
  | none => "undefined"
  | some (Value.num q) => numToString q
  | some (Value.str s) => s

/-- JS Number() on a string: integer literals parse, anything else is
NaN (none).  The claims under verification never hinge on fractional
string parsing. -/
def parseNumber (s : String) : Option ℚ :=
  (s.toInt?).map (fun n => (n : ℚ))

/-- JS Number() coercion of a possibly absent cell value; none models
NaN (in particular Number(undefined) is NaN). -/
def jsNumber : Option Value → Option ℚ
  | none => none
  | some (Value.num q) => some q
  | some (Value.str s) => parseNumber s

/-- The JS comparison x <= t where x may be NaN: every comparison with
NaN is false. -/
def jsLe (x : Option ℚ) (t : ℚ) : Bool :=
  match x with
  | some q => q ≤ t
  | none => false

/-- The JS comparison x > t where x may be NaN. -/
def jsGt (x : Option ℚ) (t : ℚ) : Bool :=
  match x with
  | some q => t < q
  | none => false

/-- The JS test (typeof v === 'number') on a possibly absent cell. -/
def isNumberVal : Option Value → Bool
  | some (Value.num _) => true
  | _ => false

/-- One step of the histogram fold `counts[value] = (counts[value] || 0) + 1`:
bump the first entry with the given key, or append a fresh entry (JS
object keys keep insertion order). -/
def bumpCount : List (String × ℕ) → String → List (String × ℕ)
  | [], k => [(k, 1)]
  | (k', c) :: rest, k =>
      if k' = k then (k', c + 1) :: rest else (k', c) :: bumpCount rest k

/-- getDistribution from the source: histogram of String(row[target])
over the subset, keys in first-seen order.  The identical fold also
builds the counts object inside getEntropy and getMajorityClass. -/
def getDistribution (data : List DataPoint) (target : String) : List (String × ℕ) :=
  data.foldl (fun acc row => bumpCount acc (jsString (lookupVal row target))) []

/-- Count stored under a key in a histogram (0 when absent). -/
def distCount : List (String × ℕ) → String → ℕ
  | [], _ => 0
  | (k', c) :: rest, k => if k' = k then c else distCount rest k

/-- getEntropy from the source: base-2 Shannon entropy of the target
histogram, written exactly as the JS reduce
`-Σ (count/len) * log2 (count/len)` over Object.values(counts). -/
noncomputable def getEntropy (data : List DataPoint) (target : String) : ℝ :=
  -(List.foldl
      (fun (s : ℝ) (c : ℕ) =>
        s + ((c : ℝ) / (data.length : ℝ)) * Real.logb 2 ((c : ℝ) / (data.length : ℝ)))
      0 ((getDistribution data target).map Prod.snd))

/-- The JS reduce `(a, b) => a[1] > b[1] ? a : b` over histogram entries:
keeps the accumulator only on strictly greater count, so a tie moves to
the later entry. -/
def majorityEntry : List (String × ℕ) → String
  | [] => ""
  | e :: rest => (rest.foldl (fun a b => if b.2 < a.2 then a else b) e).1

/-- getMajorityClass from the source: the counts object it builds is the
same fold as getDistribution, then the reduce above picks the entry with
the greatest count. -/
def getMajorityClass (data : List DataPoint) (target : String) : String :=
  majorityEntry (getDistribution data target)

/-- The featureMap table of formatFeatureName. -/
def featureNameTable : List (String × String) :=
  [("cp", "Chest Pain Type"), ("trestbps", "Resting Blood Pressure"),
   ("chol", "Cholesterol"), ("fbs", "Fasting Blood Sugar"),
   ("restecg", "Resting ECG"), ("thalach", "Max Heart Rate"),
   ("exang", "Exercise Induced Angina"), ("oldpeak", "ST Depression"),
   ("ca", "Number of Vessels"), ("thal", "Thalassemia"),
   ("applicant_income", "Monthly Income"), ("loan_amount", "Loan Amount"),
   ("loan_term", "Loan Term"), ("credit_history", "Credit History"),
   ("capital-gain", "Capital Gains"), ("capital-loss", "Capital Losses"),
   ("hours-per-week", "Hours per Week"), ("education-num", "Years of Education")]

/-- First-match lookup in the feature-name table. -/
def lookupName : List (String × String) → String → Option String
  | [], _ => none
  | (k, v) :: rest, key => if k = key then some v else lookupName rest key

/-- JS `word.charAt(0).toUpperCase() + word.slice(1)` (column names are
ASCII). -/
def capitalizeWord (s : String) : String :=
  match s.toList with
  | [] => ""
  | c :: cs => String.mk (c.toUpper :: cs)

/-- JS `feature.split('_')` on the character list: the empty string
splits to one empty word, and every underscore starts a new word. -/
def splitUnderscore : List Char → List (List Char)
  | [] => [[]]
  | c :: cs =>
      match splitUnderscore cs, decide (c = '_') with
      | rest, true => [] :: rest
      | [], false => [[c]]
      | w :: ws, false => (c :: w) :: ws

/-- formatFeatureName from the source: table lookup, else split on
underscores, capitalize each word, join with spaces.  Every table entry
is a nonempty string, so the JS truthiness fallback `|| ...` coincides
with the lookup being a miss. -/
def formatFeatureName (f : String) : String :=
  match lookupName featureNameTable f with
  | some pretty => pretty
  | none =>
      String.intercalate " "
        ((splitUnderscore f.toList).map (fun w => capitalizeWord (String.mk w)))

/-- Result of findBestSplit.  gain = none models the JS initial
bestGain of negative infinity (no candidate examined yet); the initial
accumulator is feature '', threshold 0, isNumeric true, as in the
source. -/
structure SplitInfo where
  feature : String
  threshold : Value
  gain : Option ℝ
  isNumeric : Bool

/-- The JS comparison gain > bestGain where bestGain starts at negative
infinity: every real exceeds negative infinity (and candidate gains are
finite reals, never NaN, since every probability in them is positive). -/
def gainExceeds (g : ℝ) : Option ℝ → Prop
  | none => True
  | some b => b < g

/-- The stopping test split.gain <= 0.01, where a gain of negative
infinity (none) is below the floor. -/
def gainAtMostFloor : Option ℝ → Prop
  | none => True
  | some g => g ≤ 0.01

/-- Math.min on two rationals (neither argument is NaN at any call
site), written as a plain conditional so the kernel can evaluate it. -/
def qmin (a b : ℚ) : ℚ := if a ≤ b then a else b

/-- Math.max on two rationals. -/
def qmax (a b : ℚ) : ℚ := if b ≤ a then a else b

/-- Math.min over a nonempty spread (the callers pass nonempty lists). -/
def listMin : List ℚ → ℚ
  | [] => 0
  | q :: rest => rest.foldl qmin q

/-- Math.max over a nonempty spread. -/
def listMax : List ℚ → ℚ
  | [] => 0
  | q :: rest => rest.foldl qmax q

/-- The numeric threshold loop of findBestSplit under exact arithmetic:
steps = min(20, max - min), step = (max - min)/steps, thresholds
min + step, min + 2*step, ... while strictly below max.  Since
k*step < max - min is k < steps and steps is at most 20, the range 20
scan enumerates exactly the iterations of the JS loop; when max = min
the JS loop body never runs (its NaN threshold compares false). -/
def thresholdCandidates (lo hi : ℚ) : List ℚ :=
  if hi ≤ lo then []
  else
    let steps := qmin 20 (hi - lo)
    let step := (hi - lo) / steps
    (List.range 20).filterMap (fun k =>
      let t := lo + ((k : ℚ) + 1) * step
      if t < hi then some t else none)

/-- One numeric candidate threshold inside findBestSplit: partition,
min-leaf-size skip, information gain, and the best-so-far update. -/
noncomputable def evalNumericCandidate (data : List DataPoint) (target feature : String)
    (t : ℚ) (best : SplitInfo) : SplitInfo :=
  let left := data.filter (fun row => jsLe (jsNumber (lookupVal row feature)) t)
  let right := data.filter (fun row => jsGt (jsNumber (lookupVal row feature)) t)
  if left.length < 5 || right.length < 5 then best
  else
    let gain := getEntropy data target -
      (((left.length : ℝ) / (data.length : ℝ)) * getEntropy left target +
       ((right.length : ℝ) / (data.length : ℝ)) * getEntropy right target)
    if gainExceeds gain best.gain then ⟨feature, Value.num t, some gain, true⟩ else best

/-- The JS strict equality `String(row[f]) === category` used by the
categorical partition of findBestSplit. -/
def eqCategory (v : Option Value) (category : String) : Bool :=
  jsString v == category

/-- One categorical candidate inside findBestSplit: the single category
goes left, everything else right. -/
noncomputable def evalCategoricalCandidate (data : List DataPoint) (target feature : String)
    (category : String) (best : SplitInfo) : SplitInfo :=
  let left := data.filter (fun row => eqCategory (lookupVal row feature) category)
  let right := data.filter (fun row => !eqCategory (lookupVal row feature) category)
  if left.length < 5 || right.length < 5 then best
  else
    let gain := getEntropy data target -
      (((left.length : ℝ) / (data.length : ℝ)) * getEntropy left target +
       ((right.length : ℝ) / (data.length : ℝ)) * getEntropy right target)
    if gainExceeds gain best.gain then ⟨feature, Value.str category, some gain, false⟩ else best

/-- The JS `new Set(values.map(String))` iterated in insertion order:
first occurrences, in order. -/
def dedupFirst (seen : List String) : List String → List String
  | [] => []
  | s :: rest =>
      if seen.contains s then dedupFirst seen rest
      else s :: dedupFirst (s :: seen) rest

/-- Extraction of the numeric values of a column whose cells all passed
the typeof-number test (the JS `values as number[]` cast). -/
def toNumList (values : List (Option Value)) : List ℚ :=
  values.filterMap (fun v =>
    match v with
    | some (Value.num q) => some q
    | _ => none)

/-- The per-feature body of findBestSplit: the typeof test over all
cells picks the numeric threshold scan or the categorical scan. -/
noncomputable def evalFeature (data : List DataPoint) (target : String)
    (best : SplitInfo) (feature : String) : SplitInfo :=
  let values := data.map (fun row => lookupVal row feature)
  if values.all isNumberVal then
    let nums := toNumList values
    (thresholdCandidates (listMin nums) (listMax nums)).foldl
      (fun b t => evalNumericCandidate data target feature t b) best
  else
    (dedupFirst [] (values.map jsString)).foldl
      (fun b c => evalCategoricalCandidate data target feature c b) best

/-- findBestSplit from the source: candidate features are the keys of
the first record minus the target and the excluded identifier columns,
scanned in column order from the initial accumulator. -/
noncomputable def findBestSplit (data : List DataPoint) (target : String) : SplitInfo :=
  let features := (match data with
    | [] => []
    | row :: _ => row.map Prod.fst).filter
      (fun f => f != target && f != "id" && f != "loan_id")
  features.foldl (fun b f => evalFeature data target b f)
    ⟨"", Value.num 0, none, true⟩

/-- The tree value produced by buildDecisionTree.  A decision node
stores its split threshold as the JS union number|string (the traversals
test typeof threshold); its JS confidence field holds the split gain,
and its displayed name equals its feature, so neither needs a separate
field.  The display-only condition string is omitted. -/
inductive Tree where
  | leaf (name : String) (confidence : ℝ) (samples : ℕ)
      (distribution : List (String × ℕ))
  | node (feature : String) (threshold : Value) (gain : ℝ) (samples : ℕ)
      (distribution : List (String × ℕ)) (left right : Tree)

/-- The leaf construction that buildDecisionTree duplicates at its
gain-floor exit and at its degenerate-children fallback: majority label,
majority fraction as confidence, sample count, full histogram. -/
noncomputable def makeLeaf (data : List DataPoint) (target : String) : Tree :=
  let majority := getMajorityClass data target
  Tree.leaf majority
    (((data.filter (fun row => jsString (lookupVal row target) == majority)).length : ℝ) /
      (data.length : ℝ))
    data.length (getDistribution data target)

/-- The numeric payload of a threshold (only read in the branch where
the chosen split is numeric, where the threshold is a number). -/
def thresholdNum : Value → ℚ
  | Value.num q => q
  | Value.str _ => 0

/-- The JS strict equality `String(row[f]) === split.threshold` of the
categorical partition in buildDecisionTree: the threshold is compared
unconverted, and a string is never strictly equal to a number. -/
def eqCatThreshold (v : Option Value) : Value → Bool
  | Value.str s => jsString v == s
  | Value.num _ => false

/-- The records routed left by the chosen split: numeric splits take
`Number(row[f]) <= threshold`, categorical splits take the strict string
equality with the category. -/
def splitLeftData (data : List DataPoint) (split : SplitInfo) : List DataPoint :=
  if split.isNumeric then
    data.filter (fun row =>
      jsLe (jsNumber (lookupVal row split.feature)) (thresholdNum split.threshold))
  else
    data.filter (fun row => eqCatThreshold (lookupVal row split.feature) split.threshold)

/-- The records routed right by the chosen split. -/
def splitRightData (data : List DataPoint) (split : SplitInfo) : List DataPoint :=
  if split.isNumeric then
    data.filter (fun row =>
      jsGt (jsNumber (lookupVal row split.feature)) (thresholdNum split.threshold))
  else
    data.filter (fun row => !eqCatThreshold (lookupVal row split.feature) split.threshold)

/-- buildDecisionTree from the source, recursing on maxDepth (callers
pass the default 4).  Returns none exactly where the JS returns null:
maxDepth 0 or fewer than 5 records.  A gain at most the 0.01 floor
produces a leaf; otherwise the records are partitioned by the chosen
split and, if either recursive build returns none, the node collapses
to the same leaf fallback. -/
noncomputable def buildDecisionTree : List DataPoint → String → ℕ → Option Tree
  | _, _, 0 => none
  | data, target, d + 1 =>
    if data.length < 5 then none
    else
      let split := findBestSplit data target
      if gainAtMostFloor split.gain then some (makeLeaf data target)
      else
        match buildDecisionTree (splitLeftData data split) target d,
              buildDecisionTree (splitRightData data split) target d with
        | some l, some r =>
            some (Tree.node (formatFeatureName split.feature) split.threshold
              (split.gain.getD 0) data.length (getDistribution data target) l r)
        | _, _ => some (makeLeaf data target)

/-- predictFromTree from the source: walk while the node has children,
branching on typeof threshold; at the leaf return its name and its
confidence (the JS `confidence || 0` is the identity on every stored
real confidence, 0 included). -/
def predictFromTree : Tree → DataPoint → String × ℝ
  | Tree.leaf name conf _ _, _ => (name, conf)
  | Tree.node feature threshold _ _ _ l r, input =>
    match threshold with
    | Value.num q =>
        if jsLe (jsNumber (lookupVal input feature)) q
        then predictFromTree l input else predictFromTree r input
    | Value.str s =>
        if jsString (lookupVal input feature) == s
        then predictFromTree l input else predictFromTree r input

/-- highlightDecisionPath from the source: the same traversal as
predictFromTree, recording every visited node, root first, leaf last. -/
def highlightDecisionPath : Tree → DataPoint → List Tree
  | t@(Tree.leaf _ _ _ _), _ => [t]
  | t@(Tree.node feature threshold _ _ _ l r), input =>
    t :: (match threshold with
    | Value.num q =>
        if jsLe (jsNumber (lookupVal input feature)) q
        then highlightDecisionPath l input else highlightDecisionPath r input
    | Value.str s =>
        if jsString (lookupVal input feature) == s
        then highlightDecisionPath l input else highlightDecisionPath r input)

/-- The name and confidence fields a caller reads off a node: a leaf
reports its label and confidence; a decision node displays its feature
as its name and stores its gain in the confidence field. -/
def nodeInfo : Tree → String × ℝ
  | Tree.leaf name conf _ _ => (name, conf)
  | Tree.node feature _ gain _ _ _ _ => (feature, gain)

/-- The leaves of a tree, left to right. -/
def leavesOf : Tree → List Tree
  | Tree.leaf name conf samples dist => [Tree.leaf name conf samples dist]
  | Tree.node _ _ _ _ _ l r => leavesOf l ++ leavesOf r

/-- Whether the root value is a leaf. -/
def isLeafTree : Tree → Bool
  | Tree.leaf _ _ _ _ => true
  | Tree.node _ _ _ _ _ _ _ => false

/-- Whether the tree contains at least one decision node. -/
def hasDecision : Tree → Bool
  | Tree.leaf _ _ _ _ => false
  | Tree.node _ _ _ _ _ _ _ => true

/-- The distribution stored at the root node. -/
def rootDistribution : Tree → List (String × ℕ)
  | Tree.leaf _ _ _ dist => dist
  | Tree.node _ _ _ _ dist _ _ => dist

/-- The sample count stored at the root node. -/
def rootSamples : Tree → ℕ
  | Tree.leaf _ _ samples _ => samples
  | Tree.node _ _ _ samples _ _ _ => samples

/-- The invariant of claim C3: at every decision node the per-class sum
of the two children's stored distributions equals the node's own stored
distribution, and the children's stored sample counts add up to the
node's. -/
def DistInvariant : Tree → Prop
  | Tree.leaf _ _ _ _ => True
  | Tree.node _ _ _ samples dist l r =>
      (∀ k, distCount (rootDistribution l) k + distCount (rootDistribution r) k
        = distCount dist k)
      ∧ rootSamples l + rootSamples r = samples
      ∧ DistInvariant l ∧ DistInvariant r

/-- Structural identity of trees, field by field, in the sense of claim
C9: same features, thresholds (hence the same numeric/categorical
kinds), gains, child order, leaf labels, confidences, sample counts and
distributions at every node. -/
def StructIdent : Tree → Tree → Prop
  | Tree.leaf n c s d, Tree.leaf n' c' s' d' => n = n' ∧ c = c' ∧ s = s' ∧ d = d'
  | Tree.node f th g s d l r, Tree.node f' th' g' s' d' l' r' =>
      f = f' ∧ th = th' ∧ g = g' ∧ s = s' ∧ d = d'
        ∧ StructIdent l l' ∧ StructIdent r r'
  | _, _ => False

/-- Structural identity lifted to the optional result of the builder. -/
def OptStructIdent : Option Tree → Option Tree → Prop
  | none, none => True
  | some t, some t' => StructIdent t t'
  | _, _ => False

/-- One step of the importance accumulation
`importanceMap[f] = (importanceMap[f] || 0) + w`: bump the first entry
with the given key, or append a fresh entry (insertion order, exactly
as JS object keys). -/
noncomputable def bumpWeight : List (String × ℝ) → String → ℝ → List (String × ℝ)
  | [], k, w => [(k, w)]
  | (k', w') :: rest, k, w =>
      if k' = k then (k', w' + w) :: rest else (k', w') :: bumpWeight rest k w

/-- The JS fallback `samples || 1` on a natural count. -/
def jsOrOne (n : ℕ) : ℕ := if n = 0 then 1 else n

/-- The JS fallback `confidence || 0.5` on a stored real. -/
noncomputable def jsOrHalf (x : ℝ) : ℝ := if x = 0 then 0.5 else x

/-- The traverse closure of calculateFeatureImportance: at a node with
a truthy feature field (decision nodes with a nonempty feature name;
leaves have none) accumulate
((samples || 1)/100) * 0.9^depth * (confidence || 0.5) into the map and
the running total, then descend into the children left to right. -/
noncomputable def importanceTraverse :
    Tree → ℕ → List (String × ℝ) × ℝ → List (String × ℝ) × ℝ
  | Tree.leaf _ _ _ _, _, acc => acc
  | Tree.node feature _ gain samples _ l r, depth, acc =>
    let acc1 :=
      if feature = "" then acc
      else
        let w := ((jsOrOne samples : ℝ) / 100) * (0.9 : ℝ) ^ depth * jsOrHalf gain
        (bumpWeight acc.1 feature w, acc.2 + w)
    importanceTraverse r (depth + 1) (importanceTraverse l (depth + 1) acc1)

/-- The stable insertion step of the JS sort with comparator
`(a, b) => b.importance - a.importance`: an element moves in front only
of strictly lighter ones, so equal weights keep their original order. -/
noncomputable def insertByWeight (x : String × ℝ) :
    List (String × ℝ) → List (String × ℝ)
  | [] => [x]
  | y :: ys => if y.2 < x.2 then x :: y :: ys else y :: insertByWeight x ys

/-- Stable sort by descending weight. -/
noncomputable def sortByWeightDesc (l : List (String × ℝ)) : List (String × ℝ) :=
  l.foldr insertByWeight []

/-- calculateFeatureImportance from the source: empty on a null tree,
else accumulate over the traversal, normalize by the grand total when
it is positive, and sort by descending weight. -/
noncomputable def calculateFeatureImportance : Option Tree → List (String × ℝ)
  | none => []
  | some t =>
    let acc := importanceTraverse t 0 ([], 0)
    let normalized :=
      if 0 < acc.2 then acc.1.map (fun p => (p.1, p.2 / acc.2)) else acc.1
    sortByWeightDesc normalized

/-- The accumulation described by the words of claim C4: for each
Decision node at its depth, add (samples/100) * 0.9^depth * splitQuality
into a per-feature total, visiting nodes in traversal order. -/
noncomputable def importanceSpecAccum :
    Tree → ℕ → List (String × ℝ) → List (String × ℝ)
  | Tree.leaf _ _ _ _, _, acc => acc
  | Tree.node feature _ gain samples _ l r, depth, acc =>
    let acc1 := bumpWeight acc feature
      (((samples : ℝ) / 100) * (0.9 : ℝ) ^ depth * gain)
    importanceSpecAccum r (depth + 1) (importanceSpecAccum l (depth + 1) acc1)

/-- The importance list described by the words of claim C4: accumulate,
divide each total by the grand total, sort descending by weight. -/
noncomputable def featureImportanceSpec (t : Tree) : List (String × ℝ) :=
  let m := importanceSpecAccum t 0 []
  let total := (m.map (fun p => p.2)).sum
  sortByWeightDesc (m.map (fun p => (p.1, p.2 / total)))

/-- Sum of the contributions of all decision nodes of a tree rooted at
the given depth. -/
noncomputable def contributionSum : Tree → ℕ → ℝ
  | Tree.leaf _ _ _ _, _ => 0
  | Tree.node _ _ gain samples _ l r, depth =>
      ((samples : ℝ) / 100) * (0.9 : ℝ) ^ depth * gain
        + contributionSum l (depth + 1) + contributionSum r (depth + 1)

/-- Facts the builder guarantees at every decision node: the stored
gain strictly exceeds the 0.01 floor and the node holds at least one
sample. -/
def GainPos : Tree → Prop
  | Tree.leaf _ _ _ _ => True
  | Tree.node _ _ gain samples _ l r =>
      0.01 < gain ∧ 0 < samples ∧ GainPos l ∧ GainPos r

/-- Every decision node carries a nonempty feature name. -/
def FeaturesNamed : Tree → Prop
  | Tree.leaf _ _ _ _ => True
  | Tree.node feature _ _ _ _ l r =>
      feature ≠ "" ∧ FeaturesNamed l ∧ FeaturesNamed r

/-- A row with numeric column x and target label "a". -/
def rowXA (x : ℚ) : DataPoint := [("x", Value.num x), ("y", Value.str "a")]

/-- A row with numeric column x and target label "b". -/
def rowXB (x : ℚ) : DataPoint := [("x", Value.num x), ("y", Value.str "b")]

/-- Ten records: five with x = 0 labelled "a", five with x = 2
labelled "b".  Both candidate children of the threshold x <= 1 hold
exactly five records, so the builder can split. -/
def tenRows : List DataPoint :=
  [rowXA 0, rowXA 0, rowXA 0, rowXA 0, rowXA 0,
   rowXB 2, rowXB 2, rowXB 2, rowXB 2, rowXB 2]

/-- The first five records of tenRows. -/
def tenLeft : List DataPoint := [rowXA 0, rowXA 0, rowXA 0, rowXA 0, rowXA 0]

/-- The last five records of tenRows. -/
def tenRight : List DataPoint := [rowXB 2, rowXB 2, rowXB 2, rowXB 2, rowXB 2]

/-- The tree the builder produces from tenRows with target y: a numeric
split on x at threshold 1 with gain 1, and two pure leaves. -/
def treeTen : Tree :=
  Tree.node "X" (Value.num 1) 1 10 [("a", 5), ("b", 5)]
    (Tree.leaf "a" 1 5 [("a", 5)])
    (Tree.leaf "b" 1 5 [("b", 5)])

/-- A row whose numeric column is named by the empty string. -/
def rowEA : DataPoint := [("", Value.num 0), ("y", Value.str "a")]

/-- A row whose numeric column is named by the empty string. -/
def rowEB : DataPoint := [("", Value.num 2), ("y", Value.str "b")]

/-- The tenRows dataset with its numeric column renamed to the empty
string, a legal column name the importance accumulator skips. -/
def emptyColRows : List DataPoint :=
  [rowEA, rowEA, rowEA, rowEA, rowEA, rowEB, rowEB, rowEB, rowEB, rowEB]

/-- The tree built from emptyColRows: the decision node's feature is
the empty string. -/
def treeEmptyCol : Tree :=
  Tree.node "" (Value.num 1) 1 10 [("a", 5), ("b", 5)]
    (Tree.leaf "a" 1 5 [("a", 5)])
    (Tree.leaf "b" 1 5 [("b", 5)])

/-- The record set of the concrete scenario of claim C8. -/
def c8Rows : List DataPoint :=
  [[("x", Value.num 1), ("y", Value.str "a")],
   [("x", Value.num 2), ("y", Value.str "a")],
   [("x", Value.num 8), ("y", Value.str "b")],
   [("x", Value.num 9), ("y", Value.str "b")],
   [("x", Value.num 10), ("y", Value.str "b")]]

/-- The leaf the builder actually produces from c8Rows. -/
noncomputable def c8Leaf : Tree :=
  Tree.leaf "b" ((3 : ℝ) / 5) 5 [("a", 2), ("b", 3)]

/-- Five records that lack the target column y entirely. -/
def fiveRowsNoY : List DataPoint :=
  [[("x", Value.num 1)], [("x", Value.num 2)], [("x", Value.num 3)],
   [("x", Value.num 4)], [("x", Value.num 5)]]

section ListLemmas

variable {α : Type}

/-- A fold preserves any property preserved by its step function. -/
theorem foldl_preserve {β : Type} (P : α → Prop) (f : α → β → α)
    (l : List β) (init : α) (step : ∀ a b, P a → P (f a b)) (h0 : P init) :
    P (l.foldl f init) := by
  induction l generalizing init with
  | nil => exact h0
  | cons b rest ih => exact ih (f init b) (step init b h0)

/-- Counting after a partition into a boolean test and its pointwise
complement recovers the count on the whole list. -/
theorem countP_filter_partition (l : List α) (p₁ p₂ q : α → Bool)
    (h : ∀ a ∈ l, p₂ a = !(p₁ a)) :
    (l.filter p₁).countP q + (l.filter p₂).countP q = l.countP q := by
  induction l with
  | nil => simp
  | cons a rest ih =>
    have ha := h a (List.mem_cons_self a rest)
    have hrest : ∀ x ∈ rest, p₂ x = !(p₁ x) := fun x hx => h x (List.mem_cons_of_mem a hx)
    by_cases hp : p₁ a = true
    · simp [List.filter_cons, hp, ha, List.countP_cons, ← ih hrest]
      by_cases hq : q a = true <;> simp [hq] <;> ring
    · have hp' : p₁ a = false := by simpa using hp
      simp [List.filter_cons, hp', ha, List.countP_cons, ← ih hrest]
      by_cases hq : q a = true <;> simp [hq] <;> ring

/-- Lengths after a partition into a boolean test and its pointwise
complement add up to the length of the whole list. -/
theorem length_filter_partition (l : List α) (p₁ p₂ : α → Bool)
    (h : ∀ a ∈ l, p₂ a = !(p₁ a)) :
    (l.filter p₁).length + (l.filter p₂).length = l.length := by
  induction l with
  | nil => simp
  | cons a rest ih =>
    have ha := h a (List.mem_cons_self a rest)
    have hrest : ∀ x ∈ rest, p₂ x = !(p₁ x) := fun x hx => h x (List.mem_cons_of_mem a hx)
    by_cases hp : p₁ a = true
    · simp [List.filter_cons, hp, ha, ← ih hrest]; ring
    · have hp' : p₁ a = false := by simpa using hp
      simp [List.filter_cons, hp', ha, ← ih hrest]; ring

end ListLemmas

/-- Bumping a histogram raises exactly the bumped key by one. -/
theorem distCount_bumpCount (acc : List (String × ℕ)) (k' k : String) :
    distCount (bumpCount acc k') k
      = distCount acc k + (if k' = k then 1 else 0) := by
  induction acc with
  | nil => by_cases h : k' = k <;> simp [bumpCount, distCount, h]
  | cons e rest ih =>
    obtain ⟨a, c⟩ := e
    by_cases h1 : a = k'
    · subst h1
      by_cases h2 : a = k <;> simp [bumpCount, distCount, h2]
    · by_cases h2 : a = k
      · subst h2
        have : ¬(k' = a) := fun hc => h1 hc.symm
        simp [bumpCount, distCount, h1, this]
      · simp [bumpCount, distCount, h1, h2, ih]

/-- The histogram fold counts occurrences of each key. -/
theorem distCount_fold (keyOf : DataPoint → String) (data : List DataPoint)
    (acc : List (String × ℕ)) (k : String) :
    distCount (data.foldl (fun a row => bumpCount a (keyOf row)) acc) k
      = distCount acc k + data.countP (fun row => keyOf row == k) := by
  induction data generalizing acc with
  | nil => simp
  | cons row rest ih =>
    simp only [List.foldl_cons, List.countP_cons, ih, distCount_bumpCount]
    by_cases h : keyOf row = k <;> simp [h] <;> ring

/-- getDistribution stores, under each key, the number of records whose
stringified target equals that key. -/
theorem distCount_getDistribution (data : List DataPoint) (target : String) (k : String) :
    distCount (getDistribution data target) k
      = data.countP (fun row => jsString (lookupVal row target) == k) := by
  simpa [getDistribution, distCount] using
    distCount_fold (fun row => jsString (lookupVal row target)) data [] k

/-- Claim C2 — For every record array with fewer than 5 entries, every
target column name, and every maxDepth value, buildDecisionTree returns
no tree (none) rather than a degenerate node or an exception. -/
theorem c2_insufficient_data_returns_none
    (data : List DataPoint) (target : String) (d : ℕ)
    (h : data.length < 5) : buildDecisionTree data target d = none := by
  cases d with
  | zero => rfl
  | succ d => simp [buildDecisionTree, h]

/-- Witness for claim C2 at the empty record array and depth 4. -/
theorem c2_insufficient_data_returns_none_witness :
    ([] : List DataPoint).length < 5
      ∧ buildDecisionTree [] "y" 4 = none :=
  ⟨by decide, c2_insufficient_data_returns_none [] "y" 4 (by decide)⟩

/-- Claim C7 (counterexample) — tenRows has at least five records, yet
buildDecisionTree with maxDepth 0 returns no tree at all, not a leaf. -/
theorem c7_counterexample :
    5 ≤ tenRows.length ∧ buildDecisionTree tenRows "y" 0 = none :=
  ⟨by decide, rfl⟩

/-- Claim C7 (amended) — buildDecisionTree with maxDepth 0 returns no
tree (none) for every record array and target: the maxDepth = 0 stopping
condition yields an absent tree at the top level; the leaf arises only
in the parent call, as its fallback when a child at depth 0 comes back
absent. -/
theorem c7_depth_zero_returns_none (data : List DataPoint) (target : String) :
    buildDecisionTree data target 0 = none := rfl

/-- Structural identity is reflexive. -/
theorem structIdent_refl (t : Tree) : StructIdent t t := by
  induction t with
  | leaf name conf samples dist => exact ⟨rfl, rfl, rfl, rfl⟩
  | node f th g s d l r ihl ihr => exact ⟨rfl, rfl, rfl, rfl, rfl, ihl, ihr⟩

/-- Claim C9 — Building twice from the same record array, target column
and max depth yields structurally identical trees: the builder is a pure
function of its three arguments, with no hidden randomness, so the two
results agree on every split feature, threshold, kind, child order,
leaf label, confidence, sample count and distribution. -/
theorem c9_build_deterministic (data : List DataPoint) (target : String) (d : ℕ) :
    OptStructIdent (buildDecisionTree data target d) (buildDecisionTree data target d) := by
  cases h : buildDecisionTree data target d with
  | none => trivial
  | some t => exact structIdent_refl t

/-- The initial best-split accumulator of findBestSplit. -/
def initialSplit : SplitInfo := ⟨"", Value.num 0, none, true⟩

/-- On tenRows the feature scan visits exactly the column x. -/
theorem fbs_ten_step1 :
    findBestSplit tenRows "y" = evalFeature tenRows "y" initialSplit "x" := rfl

/-- On tenLeft the only feature column is constant, so the threshold
loop never runs and the scan returns the initial accumulator. -/
theorem fbs_tenLeft : findBestSplit tenLeft "y" = initialSplit := rfl

/-- On tenRight the scan likewise returns the initial accumulator. -/
theorem fbs_tenRight : findBestSplit tenRight "y" = initialSplit := rfl

/-- Entropy of the evenly mixed ten-record set is one bit. -/
theorem ent_ten : getEntropy tenRows "y" = 1 := by
  have hd : getDistribution tenRows "y" = [("a", 5), ("b", 5)] := by decide
  have hlen : tenRows.length = 10 := by decide
  rw [getEntropy, hd, hlen]
  simp only [List.map_cons, List.map_nil, List.foldl_cons, List.foldl_nil]
  rw [show ((5 : ℕ) : ℝ) / ((10 : ℕ) : ℝ) = (2 : ℝ)⁻¹ by norm_num]
  rw [Real.logb_inv, Real.logb_self_eq_one one_lt_two]
  ring

/-- Entropy of the pure left half is zero. -/
theorem ent_tenLeft : getEntropy tenLeft "y" = 0 := by
  have hd : getDistribution tenLeft "y" = [("a", 5)] := by decide
  have hlen : tenLeft.length = 5 := by decide
  rw [getEntropy, hd, hlen]
  simp only [List.map_cons, List.map_nil, List.foldl_cons, List.foldl_nil]
  rw [show ((5 : ℕ) : ℝ) / ((5 : ℕ) : ℝ) = (1 : ℝ) by norm_num]
  simp [Real.logb_one]

/-- Entropy of the pure right half is zero. -/
theorem ent_tenRight : getEntropy tenRight "y" = 0 := by
  have hd : getDistribution tenRight "y" = [("b", 5)] := by decide
  have hlen : tenRight.length = 5 := by decide
  rw [getEntropy, hd, hlen]
  simp only [List.map_cons, List.map_nil, List.foldl_cons, List.foldl_nil]
  rw [show ((5 : ℕ) : ℝ) / ((5 : ℕ) : ℝ) = (1 : ℝ) by norm_num]
  simp [Real.logb_one]

/-- The threshold loop on the x column of tenRows tries exactly the
threshold 1. -/
theorem thresholds_ten :
    thresholdCandidates (listMin (toNumList (tenRows.map (fun row => lookupVal row "x"))))
      (listMax (toNumList (tenRows.map (fun row => lookupVal row "x")))) = [1] := by
  have h1 : listMin (toNumList (tenRows.map (fun row => lookupVal row "x"))) = 0 := by decide
  have h2 : listMax (toNumList (tenRows.map (fun row => lookupVal row "x"))) = 2 := by decide
  rw [h1, h2]
  norm_num [thresholdCandidates, qmin, List.range_succ, List.filterMap_append,
    List.filterMap_cons]

/-- The feature scan on tenRows reduces to the single threshold 1. -/
theorem fbs_ten_step2 :
    evalFeature tenRows "y" initialSplit "x"
      = evalNumericCandidate tenRows "y" "x" 1 initialSplit := by
  rw [evalFeature]
  have hall : ((tenRows.map (fun row => lookupVal row "x")).all isNumberVal) = true := by
    decide
  simp only [hall, if_true, thresholds_ten, List.foldl_cons, List.foldl_nil]

/-- The threshold 1 on tenRows has information gain one bit and becomes
the best split. -/
theorem fbs_ten_step3 :
    evalNumericCandidate tenRows "y" "x" 1 initialSplit
      = ⟨"x", Value.num 1, some 1, true⟩ := by
  rw [evalNumericCandidate]
  have hl : tenRows.filter (fun row => jsLe (jsNumber (lookupVal row "x")) 1) = tenLeft := by
    decide
  have hr : tenRows.filter (fun row => jsGt (jsNumber (lookupVal row "x")) 1) = tenRight := by
    decide
  simp only [hl, hr]
  have hskip : (tenLeft.length < 5 || tenRight.length < 5) = false := by decide
  simp only [hskip, Bool.false_eq_true, if_false]
  have hgain : getEntropy tenRows "y" -
      (((tenLeft.length : ℝ) / (tenRows.length : ℝ)) * getEntropy tenLeft "y" +
       ((tenRight.length : ℝ) / (tenRows.length : ℝ)) * getEntropy tenRight "y") = 1 := by
    rw [ent_ten, ent_tenLeft, ent_tenRight]; ring
  rw [hgain]
  simp [gainExceeds, initialSplit]

/-- The best split on tenRows: numeric split on x at threshold 1 with
gain 1. -/
theorem fbs_ten : findBestSplit tenRows "y" = ⟨"x", Value.num 1, some 1, true⟩ := by
  rw [fbs_ten_step1, fbs_ten_step2, fbs_ten_step3]

/-- The left half builds into the pure leaf "a". -/
theorem build_tenLeft :
    buildDecisionTree tenLeft "y" 3 = some (Tree.leaf "a" 1 5 [("a", 5)]) := by
  show buildDecisionTree tenLeft "y" (2 + 1) = _
  rw [buildDecisionTree]
  have hlen : ¬(tenLeft.length < 5) := by decide
  rw [if_neg hlen]
  simp only [fbs_tenLeft]
  rw [if_pos (by trivial : gainAtMostFloor (initialSplit).gain)]
  have hmaj : getMajorityClass tenLeft "y" = "a" := by decide
  have hfilter : tenLeft.filter
      (fun row => jsString (lookupVal row "y") == getMajorityClass tenLeft "y") = tenLeft := by
    decide
  rw [makeLeaf, hfilter, hmaj]
  have hdist : getDistribution tenLeft "y" = [("a", 5)] := by decide
  have hn : tenLeft.length = 5 := by decide
  rw [hdist, hn]
  norm_num

/-- The right half builds into the pure leaf "b". -/
theorem build_tenRight :
    buildDecisionTree tenRight "y" 3 = some (Tree.leaf "b" 1 5 [("b", 5)]) := by
  show buildDecisionTree tenRight "y" (2 + 1) = _
  rw [buildDecisionTree]
  have hlen : ¬(tenRight.length < 5) := by decide
  rw [if_neg hlen]
  simp only [fbs_tenRight]
  rw [if_pos (by trivial : gainAtMostFloor (initialSplit).gain)]
  have hmaj : getMajorityClass tenRight "y" = "b" := by decide
  have hfilter : tenRight.filter
      (fun row => jsString (lookupVal row "y") == getMajorityClass tenRight "y") = tenRight := by
    decide
  rw [makeLeaf, hfilter, hmaj]
  have hdist : getDistribution tenRight "y" = [("b", 5)] := by decide
  have hn : tenRight.length = 5 := by decide
  rw [hdist, hn]
  norm_num

/-- buildDecisionTree on tenRows with the default depth 4 produces the
decision tree treeTen. -/
theorem build_tenRows : buildDecisionTree tenRows "y" 4 = some treeTen := by
  show buildDecisionTree tenRows "y" (3 + 1) = _
  rw [buildDecisionTree]
  have hlen : ¬(tenRows.length < 5) := by decide
  rw [if_neg hlen]
  simp only [fbs_ten]
  rw [if_neg (by norm_num [gainAtMostFloor] : ¬gainAtMostFloor (some (1 : ℝ)))]
  have hl : splitLeftData tenRows ⟨"x", Value.num 1, some 1, true⟩ = tenLeft := by decide
  have hr : splitRightData tenRows ⟨"x", Value.num 1, some 1, true⟩ = tenRight := by decide
  rw [hl, hr, build_tenLeft, build_tenRight]
  have hfmt : formatFeatureName "x" = "X" := by decide
  have hdist : getDistribution tenRows "y" = [("a", 5), ("b", 5)] := by decide
  have hn : tenRows.length = 10 := by decide
  simp [hfmt, hdist, hn, treeTen]

/-- Entropy only depends on the target histogram and the record count. -/
theorem ent_congr (data1 data2 : List DataPoint) (t1 t2 : String)
    (hd : getDistribution data1 t1 = getDistribution data2 t2)
    (hl : data1.length = data2.length) : getEntropy data1 t1 = getEntropy data2 t2 := by
  rw [getEntropy, getEntropy, hd, hl]

/-- The left half of emptyColRows. -/
def emptyLeft : List DataPoint := [rowEA, rowEA, rowEA, rowEA, rowEA]

/-- The right half of emptyColRows. -/
def emptyRight : List DataPoint := [rowEB, rowEB, rowEB, rowEB, rowEB]

/-- A candidate threshold whose partition violates the min-leaf-size
floor leaves the best-split accumulator unchanged. -/
theorem evalNumericCandidate_skip (data : List DataPoint) (target feature : String)
    (t : ℚ) (best : SplitInfo)
    (h : ((data.filter (fun row => jsLe (jsNumber (lookupVal row feature)) t)).length < 5 ||
          (data.filter (fun row => jsGt (jsNumber (lookupVal row feature)) t)).length < 5)
        = true) :
    evalNumericCandidate data target feature t best = best := by
  rw [evalNumericCandidate]
  simp only [h, if_true]

/-- A fold whose every step fixes the accumulator returns the initial
accumulator. -/
theorem foldl_fixed {α β : Type} (l : List β) (f : α → β → α) (init : α)
    (h : ∀ a b, b ∈ l → f a b = a) : l.foldl f init = init := by
  induction l generalizing init with
  | nil => rfl
  | cons b rest ih =>
    rw [List.foldl_cons, h init b (List.mem_cons_self b rest)]
    exact ih init (fun a x hx => h a x (List.mem_cons_of_mem b hx))

/-- The scan on emptyColRows visits exactly the empty-named column. -/
theorem fbs_empty_step1 :
    findBestSplit emptyColRows "y" = evalFeature emptyColRows "y" initialSplit "" := rfl

/-- The threshold loop on the empty-named column of emptyColRows tries
exactly the threshold 1. -/
theorem thresholds_empty :
    thresholdCandidates (listMin (toNumList (emptyColRows.map (fun row => lookupVal row ""))))
      (listMax (toNumList (emptyColRows.map (fun row => lookupVal row "")))) = [1] := by
  have h1 : listMin (toNumList (emptyColRows.map (fun row => lookupVal row ""))) = 0 := by
    decide
  have h2 : listMax (toNumList (emptyColRows.map (fun row => lookupVal row ""))) = 2 := by
    decide
  rw [h1, h2]
  norm_num [thresholdCandidates, qmin, List.range_succ, List.filterMap_append,
    List.filterMap_cons]

/-- The best split on emptyColRows: numeric split on the empty-named
column at threshold 1 with gain 1. -/
theorem fbs_empty : findBestSplit emptyColRows "y" = ⟨"", Value.num 1, some 1, true⟩ := by
  rw [fbs_empty_step1, evalFeature]
  have hall : ((emptyColRows.map (fun row => lookupVal row "")).all isNumberVal) = true := by
    decide
  simp only [hall, if_true, thresholds_empty, List.foldl_cons, List.foldl_nil]
  rw [evalNumericCandidate]
  have hl : emptyColRows.filter (fun row => jsLe (jsNumber (lookupVal row "")) 1)
      = emptyLeft := by decide
  have hr : emptyColRows.filter (fun row => jsGt (jsNumber (lookupVal row "")) 1)
      = emptyRight := by decide
  simp only [hl, hr]
  have hskip : (emptyLeft.length < 5 || emptyRight.length < 5) = false := by decide
  simp only [hskip, Bool.false_eq_true, if_false]
  have hgain : getEntropy emptyColRows "y" -
      (((emptyLeft.length : ℝ) / (emptyColRows.length : ℝ)) * getEntropy emptyLeft "y" +
       ((emptyRight.length : ℝ) / (emptyColRows.length : ℝ)) * getEntropy emptyRight "y")
      = 1 := by
    rw [ent_congr emptyColRows tenRows "y" "y" (by decide) (by decide),
      ent_congr emptyLeft tenLeft "y" "y" (by decide) (by decide),
      ent_congr emptyRight tenRight "y" "y" (by decide) (by decide),
      ent_ten, ent_tenLeft, ent_tenRight]
    norm_num
  rw [hgain]
  simp [gainExceeds, initialSplit]

/-- The left half of emptyColRows builds into the pure leaf "a". -/
theorem build_emptyLeft :
    buildDecisionTree emptyLeft "y" 3 = some (Tree.leaf "a" 1 5 [("a", 5)]) := by
  show buildDecisionTree emptyLeft "y" (2 + 1) = _
  rw [buildDecisionTree]
  have hlen : ¬(emptyLeft.length < 5) := by decide
  rw [if_neg hlen]
  have hfbs : findBestSplit emptyLeft "y" = initialSplit := rfl
  simp only [hfbs]
  rw [if_pos (by trivial : gainAtMostFloor (initialSplit).gain)]
  have hmaj : getMajorityClass emptyLeft "y" = "a" := by decide
  have hfilter : emptyLeft.filter
      (fun row => jsString (lookupVal row "y") == getMajorityClass emptyLeft "y")
      = emptyLeft := by decide
  rw [makeLeaf, hfilter, hmaj]
  have hdist : getDistribution emptyLeft "y" = [("a", 5)] := by decide
  have hn : emptyLeft.length = 5 := by decide
  rw [hdist, hn]
  norm_num

/-- The right half of emptyColRows builds into the pure leaf "b". -/
theorem build_emptyRight :
    buildDecisionTree emptyRight "y" 3 = some (Tree.leaf "b" 1 5 [("b", 5)]) := by
  show buildDecisionTree emptyRight "y" (2 + 1) = _
  rw [buildDecisionTree]
  have hlen : ¬(emptyRight.length < 5) := by decide
  rw [if_neg hlen]
  have hfbs : findBestSplit emptyRight "y" = initialSplit := rfl
  simp only [hfbs]
  rw [if_pos (by trivial : gainAtMostFloor (initialSplit).gain)]
  have hmaj : getMajorityClass emptyRight "y" = "b" := by decide
  have hfilter : emptyRight.filter
      (fun row => jsString (lookupVal row "y") == getMajorityClass emptyRight "y")
      = emptyRight := by decide
  rw [makeLeaf, hfilter, hmaj]
  have hdist : getDistribution emptyRight "y" = [("b", 5)] := by decide
  have hn : emptyRight.length = 5 := by decide
  rw [hdist, hn]
  norm_num

/-- buildDecisionTree on emptyColRows produces a decision node whose
feature field is the empty string. -/
theorem build_emptyColRows : buildDecisionTree emptyColRows "y" 4 = some treeEmptyCol := by
  show buildDecisionTree emptyColRows "y" (3 + 1) = _
  rw [buildDecisionTree]
  have hlen : ¬(emptyColRows.length < 5) := by decide
  rw [if_neg hlen]
  simp only [fbs_empty]
  rw [if_neg (by norm_num [gainAtMostFloor] : ¬gainAtMostFloor (some (1 : ℝ)))]
  have hl : splitLeftData emptyColRows ⟨"", Value.num 1, some 1, true⟩ = emptyLeft := by decide
  have hr : splitRightData emptyColRows ⟨"", Value.num 1, some 1, true⟩ = emptyRight := by decide
  rw [hl, hr, build_emptyLeft, build_emptyRight]
  have hfmt : formatFeatureName "" = "" := by decide
  have hdist : getDistribution emptyColRows "y" = [("a", 5), ("b", 5)] := by decide
  have hn : emptyColRows.length = 10 := by decide
  simp [hfmt, hdist, hn, treeEmptyCol]

/-- Every candidate threshold on c8Rows is skipped: with five records in
total, no partition can give both sides the required five. -/
theorem fbs_c8 : findBestSplit c8Rows "y" = initialSplit := by
  have h1 : findBestSplit c8Rows "y" = evalFeature c8Rows "y" initialSplit "x" := rfl
  rw [h1, evalFeature]
  have hall : ((c8Rows.map (fun row => lookupVal row "x")).all isNumberVal) = true := by decide
  simp only [hall, if_true]
  have hth : thresholdCandidates (listMin (toNumList (c8Rows.map (fun row => lookupVal row "x"))))
      (listMax (toNumList (c8Rows.map (fun row => lookupVal row "x"))))
      = [2, 3, 4, 5, 6, 7, 8, 9] := by
    have hlo : listMin (toNumList (c8Rows.map (fun row => lookupVal row "x"))) = 1 := by decide
    have hhi : listMax (toNumList (c8Rows.map (fun row => lookupVal row "x"))) = 10 := by decide
    rw [hlo, hhi]
    norm_num [thresholdCandidates, qmin, List.range_succ, List.filterMap_append,
      List.filterMap_cons]
  rw [hth]
  apply foldl_fixed
  intro b t ht
  apply evalNumericCandidate_skip
  have hallskip : ∀ t ∈ ([2, 3, 4, 5, 6, 7, 8, 9] : List ℚ),
      ((c8Rows.filter (fun row => jsLe (jsNumber (lookupVal row "x")) t)).length < 5 ||
       (c8Rows.filter (fun row => jsGt (jsNumber (lookupVal row "x")) t)).length < 5)
      = true := by decide
  exact hallskip t ht

/-- buildDecisionTree on c8Rows returns the majority leaf "b" with
confidence 3/5: no split is possible. -/
theorem build_c8 : buildDecisionTree c8Rows "y" 2 = some c8Leaf := by
  show buildDecisionTree c8Rows "y" (1 + 1) = _
  rw [buildDecisionTree]
  have hlen : ¬(c8Rows.length < 5) := by decide
  rw [if_neg hlen]
  simp only [fbs_c8]
  rw [if_pos (by trivial : gainAtMostFloor (initialSplit).gain)]
  have hmaj : getMajorityClass c8Rows "y" = "b" := by decide
  have hfilter : (c8Rows.filter
      (fun row => jsString (lookupVal row "y") == getMajorityClass c8Rows "y")).length = 3 := by
    decide
  rw [makeLeaf, hfilter, hmaj]
  have hdist : getDistribution c8Rows "y" = [("a", 2), ("b", 3)] := by decide
  have hn : c8Rows.length = 5 := by decide
  rw [hdist, hn]
  simp [c8Leaf]

/-- Every candidate threshold on fiveRowsNoY is skipped for the same
five-record reason. -/
theorem fbs_fiveNoY : findBestSplit fiveRowsNoY "y" = initialSplit := by
  have h1 : findBestSplit fiveRowsNoY "y" = evalFeature fiveRowsNoY "y" initialSplit "x" := rfl
  rw [h1, evalFeature]
  have hall : ((fiveRowsNoY.map (fun row => lookupVal row "x")).all isNumberVal) = true := by
    decide
  simp only [hall, if_true]
  have hth : thresholdCandidates
      (listMin (toNumList (fiveRowsNoY.map (fun row => lookupVal row "x"))))
      (listMax (toNumList (fiveRowsNoY.map (fun row => lookupVal row "x"))))
      = [2, 3, 4] := by
    have hlo : listMin (toNumList (fiveRowsNoY.map (fun row => lookupVal row "x"))) = 1 := by
      decide
    have hhi : listMax (toNumList (fiveRowsNoY.map (fun row => lookupVal row "x"))) = 5 := by
      decide
    rw [hlo, hhi]
    norm_num [thresholdCandidates, qmin, List.range_succ, List.filterMap_append,
      List.filterMap_cons]
  rw [hth]
  apply foldl_fixed
  intro b t ht
  apply evalNumericCandidate_skip
  have hallskip : ∀ t ∈ ([2, 3, 4] : List ℚ),
      ((fiveRowsNoY.filter (fun row => jsLe (jsNumber (lookupVal row "x")) t)).length < 5 ||
       (fiveRowsNoY.filter (fun row => jsGt (jsNumber (lookupVal row "x")) t)).length < 5)
      = true := by decide
  exact hallskip t ht

/-- buildDecisionTree on the five records that lack the target column
returns a leaf labelled "undefined" with confidence 1. -/
theorem build_fiveNoY :
    buildDecisionTree fiveRowsNoY "y" 4
      = some (Tree.leaf "undefined" 1 5 [("undefined", 5)]) := by
  show buildDecisionTree fiveRowsNoY "y" (3 + 1) = _
  rw [buildDecisionTree]
  have hlen : ¬(fiveRowsNoY.length < 5) := by decide
  rw [if_neg hlen]
  simp only [fbs_fiveNoY]
  rw [if_pos (by trivial : gainAtMostFloor (initialSplit).gain)]
  have hmaj : getMajorityClass fiveRowsNoY "y" = "undefined" := by decide
  have hfilter : fiveRowsNoY.filter
      (fun row => jsString (lookupVal row "y") == getMajorityClass fiveRowsNoY "y")
      = fiveRowsNoY := by decide
  rw [makeLeaf, hfilter, hmaj]
  have hdist : getDistribution fiveRowsNoY "y" = [("undefined", 5)] := by decide
  have hn : fiveRowsNoY.length = 5 := by decide
  rw [hdist, hn]
  norm_num

/-- Every tree the builder returns stores, at its root, the histogram
and the record count of the data it was built from. -/
theorem build_root_fields (data : List DataPoint) (target : String) (d : ℕ) (t : Tree)
    (h : buildDecisionTree data target d = some t) :
    rootDistribution t = getDistribution data target ∧ rootSamples t = data.length := by
  cases d with
  | zero => exact absurd h (by simp [buildDecisionTree])
  | succ d =>
    rw [buildDecisionTree] at h
    by_cases hlen : data.length < 5
    · rw [if_pos hlen] at h; exact absurd h (by simp)
    · rw [if_neg hlen] at h
      by_cases hfloor : gainAtMostFloor (findBestSplit data target).gain
      · rw [if_pos hfloor] at h
        obtain rfl : makeLeaf data target = t := Option.some.inj h
        simp [makeLeaf, rootDistribution, rootSamples]
      · rw [if_neg hfloor] at h
        split at h
        · obtain rfl := Option.some.inj h
          simp [rootDistribution, rootSamples]
        · obtain rfl := Option.some.inj h
          simp [makeLeaf, rootDistribution, rootSamples]

/-- The property the best-split scan maintains: whenever the
accumulator holds a numeric candidate with a real gain, every record has
a number under the candidate feature (the scan only admits numeric
candidates from a column whose every cell passed the typeof test). -/
def SplitSafe (data : List DataPoint) (s : SplitInfo) : Prop :=
  ∀ g, s.gain = some g → s.isNumeric = true →
    ∀ row ∈ data, isNumberVal (lookupVal row s.feature) = true

/-- A numeric candidate preserves the scan property when its column is
all-numeric. -/
theorem splitSafe_evalNumeric (data : List DataPoint) (target feature : String) (t : ℚ)
    (best : SplitInfo)
    (hfeat : ∀ row ∈ data, isNumberVal (lookupVal row feature) = true)
    (hb : SplitSafe data best) :
    SplitSafe data (evalNumericCandidate data target feature t best) := by
  rw [evalNumericCandidate]
  split
  · exact hb
  · dsimp only
    split
    · intro g hg hnum row hrow
      exact hfeat row hrow
    · exact hb

/-- A categorical candidate preserves the scan property. -/
theorem splitSafe_evalCat (data : List DataPoint) (target feature category : String)
    (best : SplitInfo) (hb : SplitSafe data best) :
    SplitSafe data (evalCategoricalCandidate data target feature category best) := by
  rw [evalCategoricalCandidate]
  split
  · exact hb
  · dsimp only
    split
    · intro g hg hnum
      exact absurd hnum (by simp)
    · exact hb

/-- A whole feature scan preserves the property. -/
theorem splitSafe_evalFeature (data : List DataPoint) (target feature : String)
    (best : SplitInfo) (hb : SplitSafe data best) :
    SplitSafe data (evalFeature data target best feature) := by
  rw [evalFeature]
  split
  · next hall =>
    apply foldl_preserve (SplitSafe data)
    · intro s q hs
      apply splitSafe_evalNumeric
      · intro row hrow
        exact List.all_eq_true.mp hall (lookupVal row feature)
          (List.mem_map.mpr ⟨row, hrow, rfl⟩)
      · exact hs
    · exact hb
  · apply foldl_preserve (SplitSafe data)
    · intro s c hs
      exact splitSafe_evalCat data target feature c s hs
    · exact hb

/-- The best split returned by findBestSplit satisfies the scan
property. -/
theorem splitSafe_findBestSplit (data : List DataPoint) (target : String) :
    SplitSafe data (findBestSplit data target) := by
  rw [findBestSplit.eq_def]
  apply foldl_preserve (SplitSafe data)
  · intro s f hs
    exact splitSafe_evalFeature data target f s hs
  · intro g hg
    exact absurd hg (by simp)

/-- On numbers the two JS comparisons of a split are complementary. -/
theorem jsGt_eq_not_jsLe (x : ℚ) (t : ℚ) :
    jsGt (some x) t = !(jsLe (some x) t) := by
  simp only [jsLe, jsGt, ← decide_not]
  exact decide_eq_decide.mpr not_le.symm

/-- The two sides of a split partition every count: a numeric split
needs every cell of its column to be a number (no NaN survives the
typeof test the scan performed), a categorical split is a boolean test
and its negation. -/
theorem splitData_countP (data : List DataPoint) (split : SplitInfo)
    (hnum : split.isNumeric = true →
      ∀ row ∈ data, isNumberVal (lookupVal row split.feature) = true)
    (q : DataPoint → Bool) :
    (splitLeftData data split).countP q + (splitRightData data split).countP q
      = data.countP q := by
  rw [splitLeftData, splitRightData]
  by_cases hn : split.isNumeric = true
  · rw [if_pos hn, if_pos hn]
    apply countP_filter_partition
    intro row hrow
    have hv := hnum hn row hrow
    cases hl : lookupVal row split.feature with
    | none => rw [hl] at hv; exact absurd hv (by simp [isNumberVal])
    | some v =>
      cases v with
      | str s => rw [hl] at hv; exact absurd hv (by simp [isNumberVal])
      | num x =>
        exact jsGt_eq_not_jsLe x (thresholdNum split.threshold)
  · rw [if_neg hn, if_neg hn]
    apply countP_filter_partition
    intro row hrow
    rfl

/-- The two sides of a split partition the record count. -/
theorem splitData_length (data : List DataPoint) (split : SplitInfo)
    (hnum : split.isNumeric = true →
      ∀ row ∈ data, isNumberVal (lookupVal row split.feature) = true) :
    (splitLeftData data split).length + (splitRightData data split).length
      = data.length := by
  rw [splitLeftData, splitRightData]
  by_cases hn : split.isNumeric = true
  · rw [if_pos hn, if_pos hn]
    apply length_filter_partition
    intro row hrow
    have hv := hnum hn row hrow
    cases hl : lookupVal row split.feature with
    | none => rw [hl] at hv; exact absurd hv (by simp [isNumberVal])
    | some v =>
      cases v with
      | str s => rw [hl] at hv; exact absurd hv (by simp [isNumberVal])
      | num x =>
        exact jsGt_eq_not_jsLe x (thresholdNum split.threshold)
  · rw [if_neg hn, if_neg hn]
    apply length_filter_partition
    intro row hrow
    rfl

/-- A split the builder accepts carries a real gain. -/
theorem gain_some_of_not_floor (s : SplitInfo) (h : ¬gainAtMostFloor s.gain) :
    ∃ g, s.gain = some g := by
  cases hg : s.gain with
  | none => exact absurd (by rw [hg]; trivial) h
  | some g => exact ⟨g, rfl⟩

/-- Claim C3 — In every tree returned by buildDecisionTree, every
Decision node satisfies: the per-class sum of its two children's label
distributions equals its own label distribution, and the sum of its two
children's sample counts equals its own sample count. -/
theorem c3_distribution_invariant (data : List DataPoint) (target : String) (d : ℕ)
    (t : Tree) (h : buildDecisionTree data target d = some t) : DistInvariant t := by
  induction d generalizing data t with
  | zero => exact absurd h (by simp [buildDecisionTree])
  | succ d ih =>
    rw [buildDecisionTree] at h
    by_cases hlen : data.length < 5
    · rw [if_pos hlen] at h; exact absurd h (by simp)
    · rw [if_neg hlen] at h
      by_cases hfloor : gainAtMostFloor (findBestSplit data target).gain
      · rw [if_pos hfloor] at h
        obtain rfl : makeLeaf data target = t := Option.some.inj h
        simp [makeLeaf, DistInvariant]
      · rw [if_neg hfloor] at h
        have hnum : (findBestSplit data target).isNumeric = true →
            ∀ row ∈ data,
              isNumberVal (lookupVal row (findBestSplit data target).feature) = true := by
          intro hn row hrow
          obtain ⟨g, hg⟩ := gain_some_of_not_floor _ hfloor
          exact splitSafe_findBestSplit data target g hg hn row hrow
        split at h
        · next l r hL hR =>
          obtain rfl := Option.some.inj h
          refine ⟨?_, ?_, ih _ _ hL, ih _ _ hR⟩
          · intro k
            rw [(build_root_fields _ _ _ _ hL).1, (build_root_fields _ _ _ _ hR).1,
              distCount_getDistribution, distCount_getDistribution,
              distCount_getDistribution]
            exact splitData_countP data _ hnum _
          · rw [(build_root_fields _ _ _ _ hL).2, (build_root_fields _ _ _ _ hR).2]
            exact splitData_length data _ hnum
        · next hL hR =>
          obtain rfl := Option.some.inj h
          simp [makeLeaf, DistInvariant]

/-- Witness for claim C3 on the concrete ten-record build. -/
theorem c3_distribution_invariant_witness :
    buildDecisionTree tenRows "y" 4 = some treeTen ∧ DistInvariant treeTen :=
  ⟨build_tenRows, c3_distribution_invariant tenRows "y" 4 treeTen build_tenRows⟩

/-- The recorded decision path is never empty. -/
theorem highlightDecisionPath_ne_nil (t : Tree) (input : DataPoint) :
    highlightDecisionPath t input ≠ [] := by
  cases t <;> simp [highlightDecisionPath]

/-- Claim C1 — For every tree and every input, the label and confidence
returned by predictFromTree equal the name and confidence of the last
node of the path produced by highlightDecisionPath on the same tree and
input (proved for all inputs, hence in particular for every complete
input). -/
theorem c1_predict_agrees_with_path_last (t : Tree) (input : DataPoint) :
    ∃ lf, (highlightDecisionPath t input).getLast? = some lf
      ∧ predictFromTree t input = nodeInfo lf := by
  induction t with
  | leaf name conf samples dist =>
    exact ⟨Tree.leaf name conf samples dist, rfl, rfl⟩
  | node f th g s d l r ihl ihr =>
    have step : ∀ (child : Tree),
        (∃ lf, (highlightDecisionPath child input).getLast? = some lf
          ∧ predictFromTree child input = nodeInfo lf) →
        ∃ lf,
          (Tree.node f th g s d l r :: highlightDecisionPath child input).getLast? = some lf
            ∧ predictFromTree child input = nodeInfo lf := by
      intro child ⟨lf, h1, h2⟩
      refine ⟨lf, ?_, h2⟩
      cases hpath : highlightDecisionPath child input with
      | nil => exact absurd hpath (highlightDecisionPath_ne_nil child input)
      | cons p ps => rw [List.getLast?_cons_cons]; rw [hpath] at h1; exact h1
    cases th with
    | num q =>
      by_cases hc : jsLe (jsNumber (lookupVal input f)) q = true
      · simpa [highlightDecisionPath, predictFromTree, hc] using step l ihl
      · simpa [highlightDecisionPath, predictFromTree, hc] using step r ihr
    | str cat =>
      by_cases hc : (jsString (lookupVal input f) == cat) = true
      · simpa [highlightDecisionPath, predictFromTree, hc] using step l ihl
      · simpa [highlightDecisionPath, predictFromTree, hc] using step r ihr

/-- Claim C5 (counterexample) — On the built tree treeTen and the empty
input, which lacks the split feature "X" of the root Decision node,
predictFromTree raises no failure: it silently takes the right branch
and returns that leaf's label and confidence. -/
theorem c5_counterexample :
    buildDecisionTree tenRows "y" 4 = some treeTen
      ∧ lookupVal ([] : DataPoint) "X" = none
      ∧ predictFromTree treeTen [] = ("b", 1) :=
  ⟨build_tenRows, rfl, rfl⟩

/-- Claim C5 (amended) — When the traversal reaches a Decision node
with a NUMERIC split whose feature is absent from the input,
predictFromTree does not fail: Number(undefined) is NaN, the comparison
is false, and the traversal silently descends to the right child. -/
theorem c5_amended_missing_numeric_goes_right (feature : String) (q : ℚ) (gain : ℝ)
    (samples : ℕ) (dist : List (String × ℕ)) (l r : Tree) (input : DataPoint)
    (h : lookupVal input feature = none) :
    predictFromTree (Tree.node feature (Value.num q) gain samples dist l r) input
      = predictFromTree r input := by
  simp [predictFromTree, h, jsNumber, jsLe]

/-- Witness for the amended claim C5 at a concrete node and the empty
input. -/
theorem c5_amended_missing_numeric_goes_right_witness :
    lookupVal ([] : DataPoint) "Z" = none
      ∧ predictFromTree
          (Tree.node "Z" (Value.num 3) 1 10 []
            (Tree.leaf "u" 1 4 []) (Tree.leaf "v" 1 6 [])) []
        = predictFromTree (Tree.leaf "v" 1 6 []) [] :=
  ⟨rfl, c5_amended_missing_numeric_goes_right "Z" 3 1 10 []
    (Tree.leaf "u" 1 4 []) (Tree.leaf "v" 1 6 []) [] rfl⟩

/-- Claim C6 (counterexample) — fiveRowsNoY has five records, none of
which carries the target column y, and maxDepth is positive, yet
buildDecisionTree returns a tree value (a leaf labelled "undefined")
instead of failing loudly. -/
theorem c6_counterexample :
    5 ≤ fiveRowsNoY.length
      ∧ fiveRowsNoY.all (fun row => (lookupVal row "y").isNone) = true
      ∧ buildDecisionTree fiveRowsNoY "y" 4
          = some (Tree.leaf "undefined" 1 5 [("undefined", 5)]) :=
  ⟨by decide, by decide, build_fiveNoY⟩

/-- Claim C8 (counterexample) — On the record set
[x:1 y:a, x:2 y:a, x:8 y:b, x:9 y:b, x:10 y:b] with target y and
maxDepth 2, buildDecisionTree returns a leaf, not a Decision node: with
only five records, every candidate threshold leaves one side below the
five-record floor. -/
theorem c8_counterexample :
    buildDecisionTree c8Rows "y" 2 = some c8Leaf ∧ isLeafTree c8Leaf = true :=
  ⟨build_c8, rfl⟩

/-- Claim C8 (amended) — On that record set the builder returns the
majority leaf: label "b", confidence 3/5, five samples, distribution
a:2 b:3. -/
theorem c8_amended_majority_leaf :
    buildDecisionTree c8Rows "y" 2 = some c8Leaf
      ∧ nodeInfo c8Leaf = ("b", (3 : ℝ) / 5)
      ∧ rootSamples c8Leaf = 5
      ∧ rootDistribution c8Leaf = [("a", 2), ("b", 3)] :=
  ⟨build_c8, rfl, rfl, rfl⟩

/-- Claim C10 — For every tree and every input map, even one missing
features the tree queries, predictFromTree terminates with the name and
confidence of some leaf of the tree; the NaN comparison of a missing
NUMERIC feature is false, so the traversal descends to the right
child. -/
theorem c10_predict_total_reaches_leaf :
    (∀ (t : Tree) (input : DataPoint),
        ∃ lf ∈ leavesOf t, predictFromTree t input = nodeInfo lf)
      ∧ (∀ q : ℚ, jsLe (jsNumber none) q = false)
      ∧ (∀ (feature : String) (q : ℚ) (gain : ℝ) (samples : ℕ)
          (dist : List (String × ℕ)) (l r : Tree) (input : DataPoint),
          lookupVal input feature = none →
          predictFromTree (Tree.node feature (Value.num q) gain samples dist l r) input
            = predictFromTree r input) := by
  refine ⟨?_, fun q => rfl, ?_⟩
  · intro t input
    induction t with
    | leaf name conf samples dist =>
      exact ⟨Tree.leaf name conf samples dist, by simp [leavesOf], rfl⟩
    | node f th g s d l r ihl ihr =>
      cases th with
      | num q =>
        by_cases hc : jsLe (jsNumber (lookupVal input f)) q = true
        · obtain ⟨lf, hmem, heq⟩ := ihl
          exact ⟨lf, by simp [leavesOf]; exact Or.inl hmem,
            by simp [predictFromTree, hc]; exact heq⟩
        · obtain ⟨lf, hmem, heq⟩ := ihr
          exact ⟨lf, by simp [leavesOf]; exact Or.inr hmem,
            by simp [predictFromTree, hc]; exact heq⟩
      | str cat =>
        by_cases hc : (jsString (lookupVal input f) == cat) = true
        · obtain ⟨lf, hmem, heq⟩ := ihl
          exact ⟨lf, by simp [leavesOf]; exact Or.inl hmem,
            by simp [predictFromTree, hc]; exact heq⟩
        · obtain ⟨lf, hmem, heq⟩ := ihr
          exact ⟨lf, by simp [leavesOf]; exact Or.inr hmem,
            by simp [predictFromTree, hc]; exact heq⟩
  · intro feature q gain samples dist l r input h
    simp [predictFromTree, h, jsNumber, jsLe]

/-- Witness for claim C10 on the built tree treeTen, the empty input,
and a concrete missing-feature node. -/
theorem c10_predict_total_reaches_leaf_witness :
    (∃ lf ∈ leavesOf treeTen, predictFromTree treeTen [] = nodeInfo lf)
      ∧ jsLe (jsNumber none) 7 = false
      ∧ predictFromTree
          (Tree.node "W" (Value.num 2) 1 12 []
            (Tree.leaf "p" 1 6 []) (Tree.leaf "n" 1 6 [])) []
        = predictFromTree (Tree.leaf "n" 1 6 []) [] :=
  ⟨c10_predict_total_reaches_leaf.1 treeTen [],
   c10_predict_total_reaches_leaf.2.1 7,
   c10_predict_total_reaches_leaf.2.2 "W" 2 1 12 []
     (Tree.leaf "p" 1 6 []) (Tree.leaf "n" 1 6 []) [] rfl⟩

/-- Claim C4 (counterexample) — The tree built from emptyColRows has a
Decision node, yet calculateFeatureImportance returns the empty list
(its weights sum to 0, not 1): the accumulator's truthiness test skips
the node because its feature name is the empty string, while the
claim's accumulation counts every Decision node. -/
theorem c4_counterexample :
    buildDecisionTree emptyColRows "y" 4 = some treeEmptyCol
      ∧ hasDecision treeEmptyCol = true
      ∧ calculateFeatureImportance (some treeEmptyCol) = []
      ∧ ((calculateFeatureImportance (some treeEmptyCol)).map (fun p => p.2)).sum = 0 := by
  have ht : importanceTraverse treeEmptyCol 0 ([], 0) = ([], 0) := by
    rw [treeEmptyCol]
    rw [importanceTraverse]
    simp [importanceTraverse]
  have hfi : calculateFeatureImportance (some treeEmptyCol) = [] := by
    rw [calculateFeatureImportance, ht]
    simp [sortByWeightDesc]
  exact ⟨build_emptyColRows, rfl, hfi, by rw [hfi]; simp⟩

/-- Every tree the builder returns has, at each decision node, a gain
above the 0.01 floor and a positive sample count. -/
theorem build_gainPos (data : List DataPoint) (target : String) (d : ℕ) (t : Tree)
    (h : buildDecisionTree data target d = some t) : GainPos t := by
  induction d generalizing data t with
  | zero => exact absurd h (by simp [buildDecisionTree])
  | succ d ih =>
    rw [buildDecisionTree] at h
    by_cases hlen : data.length < 5
    · rw [if_pos hlen] at h; exact absurd h (by simp)
    · rw [if_neg hlen] at h
      by_cases hfloor : gainAtMostFloor (findBestSplit data target).gain
      · rw [if_pos hfloor] at h
        obtain rfl : makeLeaf data target = t := Option.some.inj h
        simp [makeLeaf, GainPos]
      · rw [if_neg hfloor] at h
        split at h
        · next l r hL hR =>
          obtain rfl := Option.some.inj h
          obtain ⟨g, hg⟩ := gain_some_of_not_floor _ hfloor
          refine ⟨?_, ?_, ih _ _ hL, ih _ _ hR⟩
          · rw [hg]
            have : ¬(g ≤ 0.01) := by
              intro hle
              exact hfloor (by rw [hg]; exact hle)
            simpa using not_le.mp this
          · omega
        · next hL hR =>
          obtain rfl := Option.some.inj h
          simp [makeLeaf, GainPos]

/-- Bumping a weight map raises the total weight by the bumped
amount. -/
theorem bumpWeight_sum (m : List (String × ℝ)) (k : String) (w : ℝ) :
    ((bumpWeight m k w).map (fun p => p.2)).sum
      = (m.map (fun p => p.2)).sum + w := by
  induction m with
  | nil => simp [bumpWeight]
  | cons e rest ih =>
    obtain ⟨k', w'⟩ := e
    by_cases h : k' = k
    · simp [bumpWeight, h]; ring
    · simp [bumpWeight, h, ih]; ring

/-- The spec-side accumulation raises the total weight by the sum of
the contributions of the subtree. -/
theorem specAccum_sum (t : Tree) :
    ∀ (d : ℕ) (m : List (String × ℝ)),
      ((importanceSpecAccum t d m).map (fun p => p.2)).sum
        = (m.map (fun p => p.2)).sum + contributionSum t d := by
  induction t with
  | leaf name conf samples dist => intro d m; simp [importanceSpecAccum, contributionSum]
  | node f th g s dist l r ihl ihr =>
    intro d m
    rw [importanceSpecAccum]
    rw [ihr, ihl, bumpWeight_sum, contributionSum]
    ring

/-- On a built tree with nonempty feature names, the source traversal
coincides with the spec accumulation, and its running total adds the
subtree's contribution sum. -/
theorem traverse_eq (t : Tree) : GainPos t → FeaturesNamed t →
    ∀ (d : ℕ) (m : List (String × ℝ)) (s : ℝ),
      importanceTraverse t d (m, s) = (importanceSpecAccum t d m, s + contributionSum t d) := by
  induction t with
  | leaf name conf samples dist =>
    intro hg hn d m s
    simp [importanceTraverse, importanceSpecAccum, contributionSum]
  | node f th g smp dist l r ihl ihr =>
    intro hg hn d m s
    obtain ⟨hgain, hsmp, hgl, hgr⟩ := hg
    obtain ⟨hf, hnl, hnr⟩ := hn
    rw [importanceTraverse]
    dsimp only
    rw [if_neg hf]
    have hsmp1 : jsOrOne smp = smp := by
      rw [jsOrOne, if_neg (Nat.pos_iff_ne_zero.mp hsmp)]
    have hghalf : jsOrHalf g = g := by
      have hgz : (0:ℝ) < g := lt_trans (by norm_num) hgain
      rw [jsOrHalf, if_neg (ne_of_gt hgz)]
    rw [hsmp1, hghalf]
    rw [ihl hgl hnl, ihr hgr hnr]
    rw [importanceSpecAccum]
    rw [contributionSum]
    simp only [Prod.mk.injEq]
    exact ⟨trivial, by ring⟩

/-- Inserting into the sorted list is a permutation of consing. -/
theorem insertByWeight_perm (x : String × ℝ) (l : List (String × ℝ)) :
    List.Perm (insertByWeight x l) (x :: l) := by
  induction l with
  | nil => exact List.Perm.refl _
  | cons y ys ih =>
    rw [insertByWeight]
    by_cases h : y.2 < x.2
    · rw [if_pos h]
    · rw [if_neg h]
      exact (List.Perm.cons y ih).trans (List.Perm.swap x y ys)

/-- The descending sort is a permutation of its input. -/
theorem sortByWeightDesc_perm (l : List (String × ℝ)) :
    List.Perm (sortByWeightDesc l) l := by
  induction l with
  | nil => exact List.Perm.refl _
  | cons a rest ih =>
    rw [sortByWeightDesc, List.foldr_cons]
    exact (insertByWeight_perm a _).trans (List.Perm.cons a ih)

/-- Normalizing a weight map divides its total weight. -/
theorem sum_map_snd_div (m : List (String × ℝ)) (c : ℝ) :
    ((m.map (fun p => (p.1, p.2 / c))).map (fun p => p.2)).sum
      = (m.map (fun p => p.2)).sum / c := by
  induction m with
  | nil => simp
  | cons p rest ih =>
    simp only [List.map_cons, List.sum_cons, ih]
    ring

/-- Contribution sums of built trees are nonnegative. -/
theorem contributionSum_nonneg (t : Tree) (hg : GainPos t) :
    ∀ d : ℕ, 0 ≤ contributionSum t d := by
  induction t with
  | leaf name conf samples dist => intro d; simp [contributionSum]
  | node f th g s dist l r ihl ihr =>
    intro d
    obtain ⟨hgain, hs, hgl, hgr⟩ := hg
    rw [contributionSum]
    have h1 : (0:ℝ) ≤ ((s : ℝ) / 100) * (0.9 : ℝ) ^ d * g := by
      apply mul_nonneg (mul_nonneg (by positivity) (by positivity))
      linarith
    have h2 := ihl hgl (d + 1)
    have h3 := ihr hgr (d + 1)
    linarith

/-- A built tree with at least one decision node has a positive
contribution sum. -/
theorem contributionSum_pos (t : Tree) (hg : GainPos t) (hd : hasDecision t = true) :
    ∀ d : ℕ, 0 < contributionSum t d := by
  cases t with
  | leaf name conf samples dist => simp [hasDecision] at hd
  | node f th g s dist l r =>
    intro d
    obtain ⟨hgain, hs, hgl, hgr⟩ := hg
    rw [contributionSum]
    have h1 : (0:ℝ) < ((s : ℝ) / 100) * (0.9 : ℝ) ^ d * g := by
      apply mul_pos (mul_pos (by positivity) (by positivity))
      linarith
    have h2 := contributionSum_nonneg l hgl (d + 1)
    have h3 := contributionSum_nonneg r hgr (d + 1)
    linarith

/-- Claim C4 (amended) — For every tree returned by buildDecisionTree
in which every Decision node's feature name is nonempty (the
accumulator's JS truthiness test skips an empty-named feature): if the
tree has at least one Decision node, calculateFeatureImportance equals
the list obtained by accumulating (samples/100) * 0.9^depth *
splitQuality per feature over all Decision nodes, normalizing by the
grand total, and sorting descending by weight, and its returned weights
sum to exactly 1; and if the tree is a single leaf it returns the
empty list. -/
theorem c4_amended_importance (data : List DataPoint) (target : String) (d : ℕ) (t : Tree)
    (hb : buildDecisionTree data target d = some t) (hnamed : FeaturesNamed t) :
    (hasDecision t = true →
        calculateFeatureImportance (some t) = featureImportanceSpec t
          ∧ ((calculateFeatureImportance (some t)).map (fun p => p.2)).sum = 1)
      ∧ (isLeafTree t = true → calculateFeatureImportance (some t) = []) := by
  have hg := build_gainPos data target d t hb
  constructor
  · intro hdec
    have htr := traverse_eq t hg hnamed 0 [] 0
    have hpos : 0 < contributionSum t 0 := contributionSum_pos t hg hdec 0
    have hfi : calculateFeatureImportance (some t)
        = sortByWeightDesc ((importanceSpecAccum t 0 []).map
            (fun p => (p.1, p.2 / contributionSum t 0))) := by
      rw [calculateFeatureImportance, htr]
      rw [zero_add]
      rw [if_pos hpos]
    have hspec : featureImportanceSpec t
        = sortByWeightDesc ((importanceSpecAccum t 0 []).map
            (fun p => (p.1, p.2 / contributionSum t 0))) := by
      rw [featureImportanceSpec]
      rw [specAccum_sum t 0 []]
      simp only [List.map_nil, List.sum_nil, zero_add]
    constructor
    · rw [hfi, hspec]
    · rw [hfi]
      have hperm := List.Perm.map (fun p : String × ℝ => p.2)
        (sortByWeightDesc_perm ((importanceSpecAccum t 0 []).map
          (fun p => (p.1, p.2 / contributionSum t 0))))
      rw [hperm.sum_eq]
      rw [sum_map_snd_div, specAccum_sum t 0 []]
      simp only [List.map_nil, List.sum_nil, zero_add]
      exact div_self (ne_of_gt hpos)
  · intro hleaf
    cases t with
    | leaf name conf samples dist =>
      rw [calculateFeatureImportance]
      rw [importanceTraverse]
      simp [sortByWeightDesc]
    | node f th g s dist l r => simp [isLeafTree] at hleaf

/-- Witness for the amended claim C4 on the concrete ten-record
build. -/
theorem c4_amended_importance_witness :
    buildDecisionTree tenRows "y" 4 = some treeTen
      ∧ FeaturesNamed treeTen
      ∧ hasDecision treeTen = true
      ∧ calculateFeatureImportance (some treeTen) = featureImportanceSpec treeTen
      ∧ ((calculateFeatureImportance (some treeTen)).map (fun p => p.2)).sum = 1 := by
  have hnamed : FeaturesNamed treeTen := ⟨by decide, trivial, trivial⟩
  have h := c4_amended_importance tenRows "y" 4 treeTen build_tenRows hnamed
  exact ⟨build_tenRows, hnamed, rfl, (h.1 rfl).1, (h.1 rfl).2⟩

/-- Folding records whose target is missing into a histogram that
already holds only the key "undefined" keeps that single key. -/
theorem undef_fold (target : String) (data : List DataPoint)
    (h : ∀ row ∈ data, lookupVal row target = none) (n : ℕ) :
    data.foldl (fun acc row => bumpCount acc (jsString (lookupVal row target)))
      [("undefined", n)] = [("undefined", n + data.length)] := by
  induction data generalizing n with
  | nil => simp
  | cons row rest ih =>
    rw [List.foldl_cons, h row (List.mem_cons_self row rest)]
    rw [show bumpCount [("undefined", n)] (jsString none) = [("undefined", n + 1)] from rfl]
    rw [ih (fun r hr => h r (List.mem_cons_of_mem row hr)) (n + 1)]
    simp [List.length_cons]
    omega

/-- When every record lacks the target column the histogram holds the
single key "undefined". -/
theorem getDistribution_all_missing (target : String) (data : List DataPoint)
    (h : ∀ row ∈ data, lookupVal row target = none) (hne : data ≠ []) :
    getDistribution data target = [("undefined", data.length)] := by
  cases data with
  | nil => exact absurd rfl hne
  | cons row rest =>
    rw [getDistribution, List.foldl_cons, h row (List.mem_cons_self row rest)]
    rw [show bumpCount [] (jsString none) = [("undefined", 1)] from rfl]
    rw [undef_fold target rest (fun r hr => h r (List.mem_cons_of_mem row hr)) 1]
    simp [List.length_cons]
    omega

/-- When every record lacks the target column the entropy is zero: the
single class has probability one. -/
theorem getEntropy_all_missing (target : String) (data : List DataPoint)
    (h : ∀ row ∈ data, lookupVal row target = none) :
    getEntropy data target = 0 := by
  by_cases hne : data = []
  · subst hne; simp [getEntropy, getDistribution]
  · rw [getEntropy, getDistribution_all_missing target data h hne]
    simp only [List.map_cons, List.map_nil, List.foldl_cons, List.foldl_nil]
    have hlen0 : (data.length : ℝ) ≠ 0 :=
      Nat.cast_ne_zero.mpr (fun h0 => hne (List.length_eq_zero.mp h0))
    rw [div_self hlen0, Real.logb_one]
    ring

/-- The gain of any candidate over target-missing data is zero. -/
theorem gainExpr_zero (target : String) (data l r : List DataPoint)
    (hd : ∀ row ∈ data, lookupVal row target = none)
    (hl : ∀ row ∈ l, row ∈ data) (hr : ∀ row ∈ r, row ∈ data) :
    getEntropy data target -
      (((l.length : ℝ) / (data.length : ℝ)) * getEntropy l target +
       ((r.length : ℝ) / (data.length : ℝ)) * getEntropy r target) = 0 := by
  rw [getEntropy_all_missing target data hd,
      getEntropy_all_missing target l (fun row hrow => hd row (hl row hrow)),
      getEntropy_all_missing target r (fun row hrow => hd row (hr row hrow))]
  ring

/-- The property the scan maintains over target-missing data: the best
gain so far is still negative infinity, or exactly zero. -/
def GainZeroOrNone (s : SplitInfo) : Prop := s.gain = none ∨ s.gain = some 0

/-- A numeric candidate keeps the zero-gain property over
target-missing data. -/
theorem gzn_evalNumeric (data : List DataPoint) (target feature : String) (t : ℚ)
    (best : SplitInfo) (hmiss : ∀ row ∈ data, lookupVal row target = none)
    (hb : GainZeroOrNone best) :
    GainZeroOrNone (evalNumericCandidate data target feature t best) := by
  rw [evalNumericCandidate]
  split
  · exact hb
  · dsimp only
    split
    · right
      exact congrArg some (gainExpr_zero target data _ _ hmiss
        (fun row hrow => List.mem_of_mem_filter hrow)
        (fun row hrow => List.mem_of_mem_filter hrow))
    · exact hb

/-- A categorical candidate keeps the zero-gain property over
target-missing data. -/
theorem gzn_evalCat (data : List DataPoint) (target feature category : String)
    (best : SplitInfo) (hmiss : ∀ row ∈ data, lookupVal row target = none)
    (hb : GainZeroOrNone best) :
    GainZeroOrNone (evalCategoricalCandidate data target feature category best) := by
  rw [evalCategoricalCandidate]
  split
  · exact hb
  · dsimp only
    split
    · right
      exact congrArg some (gainExpr_zero target data _ _ hmiss
        (fun row hrow => List.mem_of_mem_filter hrow)
        (fun row hrow => List.mem_of_mem_filter hrow))
    · exact hb

/-- The whole best-split scan keeps the zero-gain property over
target-missing data. -/
theorem gzn_findBestSplit (data : List DataPoint) (target : String)
    (hmiss : ∀ row ∈ data, lookupVal row target = none) :
    GainZeroOrNone (findBestSplit data target) := by
  rw [findBestSplit.eq_def]
  apply foldl_preserve GainZeroOrNone
  · intro s f hs
    rw [evalFeature]
    split
    · apply foldl_preserve GainZeroOrNone
      · intro s' t hs'
        exact gzn_evalNumeric data target f t s' hmiss hs'
      · exact hs
    · apply foldl_preserve GainZeroOrNone
      · intro s' c hs'
        exact gzn_evalCat data target f c s' hmiss hs'
      · exact hs
  · exact Or.inl rfl

/-- A zero-or-absent best gain is at most the 0.01 floor. -/
theorem floor_of_gzn (s : SplitInfo) (h : GainZeroOrNone s) :
    gainAtMostFloor s.gain := by
  cases h with
  | inl h0 => rw [h0]; trivial
  | inr h0 => rw [h0]; norm_num [gainAtMostFloor]

/-- Claim C6 (amended) — A call with at least five records, positive
maxDepth, and a target column absent from every record does not fail:
every row's missing target stringifies to "undefined", every candidate
gain is zero, and the builder returns a single leaf labelled
"undefined" with confidence 1. -/
theorem c6_amended_missing_target_leaf (data : List DataPoint) (target : String) (d : ℕ)
    (hlen : 5 ≤ data.length) (hmiss : ∀ row ∈ data, lookupVal row target = none) :
    buildDecisionTree data target (d + 1)
      = some (Tree.leaf "undefined" 1 data.length [("undefined", data.length)]) := by
  rw [buildDecisionTree]
  rw [if_neg (by omega)]
  rw [if_pos (floor_of_gzn _ (gzn_findBestSplit data target hmiss))]
  have hne : data ≠ [] := by
    intro h0
    rw [h0] at hlen
    simp at hlen
  have hdist := getDistribution_all_missing target data hmiss hne
  have hmaj : getMajorityClass data target = "undefined" := by
    rw [getMajorityClass, hdist]; rfl
  have hfilter : data.filter
      (fun row => jsString (lookupVal row target) == getMajorityClass data target)
      = data := by
    apply List.filter_eq_self.mpr
    intro row hrow
    rw [hmiss row hrow, hmaj]
    rfl
  rw [makeLeaf, hfilter, hmaj, hdist]
  have hlen0 : (data.length : ℝ) ≠ 0 := Nat.cast_ne_zero.mpr (by omega)
  rw [div_self hlen0]

/-- Witness for the amended claim C6 on the five records without a
target column. -/
theorem c6_amended_missing_target_leaf_witness :
    5 ≤ fiveRowsNoY.length
      ∧ fiveRowsNoY.all (fun row => (lookupVal row "y").isNone) = true
      ∧ buildDecisionTree fiveRowsNoY "y" 4
          = some (Tree.leaf "undefined" 1 fiveRowsNoY.length
              [("undefined", fiveRowsNoY.length)]) :=
  ⟨by decide, by decide,
    c6_amended_missing_target_leaf fiveRowsNoY "y" 3 (by decide) (by decide)⟩

end DTree
